import Mathlib

/-!
Verification of the KMRL Document Manager AI service
(`src/ai-service/app.py`) against its natural-language specification.

The development shallowly embeds the relevant Python functions in Lean:

* Python numbers are modelled as rationals (`ℚ`); the clamping and
  weighting arithmetic of the source stays within ranges where IEEE
  doubles behave exactly like rationals.
* Python text is modelled as `List Char`; slicing with Python's
  negative-index semantics is embedded explicitly (`pySlice`).
* Fallible values (`None` results) are modelled with `Option`.
* The module-level optimizer object is modelled as an explicit state
  record threaded through the call functions; `time.time()` becomes an
  explicit integer-seconds `now : ℤ` argument.
-/

namespace KMRLDoc

/-! ## Result Normalizer (`validate_and_filter_roles`, `clamp01`, `normalize_analysis`) -/

/-- The closed role vocabulary `VALID_KMRL_ROLES` of `app.py`. -/
def VALID_KMRL_ROLES : List String := ["LEADERSHIP", "HR", "FINANCE", "ENGINEER", "ADMIN"]

/-- A Python value appearing in the `roles` field: either a list (of role
labels) or some truthy non-list value. Non-string list elements compare
unequal to every vocabulary string, exactly like unrecognized labels, so
list elements are modelled as strings. -/
inductive PyRoles
  | notAList
  | aList (l : List String)
  deriving DecidableEq, Repr

/-- `validate_and_filter_roles` from `app.py`: keep only vocabulary roles,
default to `["LEADERSHIP"]` when the input is not a list or the filter
result is empty. -/
def validate_and_filter_roles : PyRoles → List String
  | .notAList => ["LEADERSHIP"]
  | .aList l =>
      let valid_roles := l.filter (fun role => VALID_KMRL_ROLES.contains role)
      if valid_roles.isEmpty then ["LEADERSHIP"] else valid_roles

/-- A raw Python value fed to `float()`: either a numeric value or a value
on which `float()` raises (unparsable). -/
inductive PyNum
  | num (q : ℚ)
  | unparsable
  deriving DecidableEq, Repr

/-- `clamp01` from `app.py`: `max(0.1, min(1.0, float(x)))`, with the
`except` branch returning `0.75` when `float(x)` raises. -/
def clamp01 : PyNum → ℚ
  | .num q => max (1/10) (min 1 q)
  | .unparsable => 3/4

/-- The `recommended_roles` field of the analysis dict: absent/falsy
(treated as an empty dict by `analysis.get('recommended_roles') or {}`),
a truthy non-dict value (on which `.get` raises `AttributeError`, caught
by the outer handler of `normalize_analysis`), or a dict with the three
subfields the source reads. `none` subfields are absent keys. -/
inductive RecField
  | missingOrFalsy
  | notADict
  | aDict (roles : Option PyRoles) (confidence : Option PyNum) (reasoning : Option String)
  deriving DecidableEq, Repr

/-- Input of `normalize_analysis`: a non-dict value or a dict carrying the
fields the function reads. `sensitivity` / `docType` model the
`sensitivity_level` / `document_type` entries (`none` = key absent). -/
inductive AnalysisIn
  | notADict
  | aDict (rec : RecField) (sensitivity : Option String) (docType : Option String)
  deriving DecidableEq, Repr

/-- The normalized `recommended_roles` record. -/
structure RecRoles where
  roles : List String
  confidence : ℚ
  reasoning : String
  deriving DecidableEq, Repr

/-- The part of the output record of `normalize_analysis` that the
specification constrains. -/
structure AnalysisOut where
  recommended_roles : RecRoles
  sensitivity_level : String
  document_type : String
  deriving DecidableEq, Repr

/-- `roles = rec.get('roles') or ['LEADERSHIP']`: an absent key, `None`
or an empty list (all falsy) are replaced by the default list. -/
def rolesOrDefault : Option PyRoles → PyRoles
  | none => .aList ["LEADERSHIP"]
  | some (.aList []) => .aList ["LEADERSHIP"]
  | some r => r

/-- `rec.get('reasoning') or <default>`: falsy (absent or empty) strings
are replaced by the default reasoning text. -/
def reasoningOrDefault (r : Option String) : String :=
  match r with
  | some s => if s = "" then "Combined AI and heuristic analysis." else s
  | none => "Combined AI and heuristic analysis."

/-- `if not analysis.get(key): ... = default` on the main path: absent or
empty values are replaced. -/
def fieldOrDefault (v : Option String) (dflt : String) : String :=
  match v with
  | some s => if s = "" then dflt else s
  | none => dflt

/-- `normalize_analysis` from `app.py`, restricted to the fields the
specification talks about.  The non-dict input and the
`rec`-is-not-a-dict input (which raises inside the `try` block) both
land on fixed default records with confidence `0.75`. -/
def normalize_analysis : AnalysisIn → AnalysisOut
  | .notADict =>
      { recommended_roles :=
          { roles := ["LEADERSHIP"], confidence := 3/4,
            reasoning := "Defaulted due to invalid analysis structure" },
        sensitivity_level := "MEDIUM", document_type := "other" }
  | .aDict .notADict sens dt =>
      -- `rec.get` raises AttributeError; the outer handler rebuilds the record
      -- via `analysis.get(key, default)`.
      { recommended_roles :=
          { roles := ["LEADERSHIP"], confidence := 3/4,
            reasoning := "Defaulted due to exception in normalization" },
        sensitivity_level := sens.getD "MEDIUM", document_type := dt.getD "other" }
  | .aDict .missingOrFalsy sens dt =>
      { recommended_roles :=
          { roles := validate_and_filter_roles (rolesOrDefault none),
            confidence :=
              (fun conf1 => if conf1 = 0 then 3/20 else conf1) (clamp01 (.num (3/4))),
            reasoning := reasoningOrDefault none },
        sensitivity_level := fieldOrDefault sens "MEDIUM",
        document_type := fieldOrDefault dt "other" }
  | .aDict (.aDict rolesF confF reasonF) sens dt =>
      let roles := validate_and_filter_roles (rolesOrDefault rolesF)
      let conf1 := clamp01 (confF.getD (.num (3/4)))
      -- the source then lifts an exact 0.0 to 0.15; this test sits after
      -- `clamp01`, which has already bounded the value below by 0.1.
      let conf2 := if conf1 = 0 then 3/20 else conf1
      { recommended_roles :=
          { roles := roles, confidence := conf2, reasoning := reasoningOrDefault reasonF },
        sensitivity_level := fieldOrDefault sens "MEDIUM",
        document_type := fieldOrDefault dt "other" }

lemma clamp01_mem (p : PyNum) : 1/10 ≤ clamp01 p ∧ clamp01 p ≤ 1 := by
  cases p with
  | num q =>
      refine ⟨le_max_left _ _, max_le (by norm_num) (min_le_left _ _)⟩
  | unparsable => norm_num [clamp01]

lemma validate_roles_sound (p : PyRoles) :
    validate_and_filter_roles p ≠ [] ∧
      ∀ r ∈ validate_and_filter_roles p, r ∈ VALID_KMRL_ROLES := by
  cases p with
  | notAList => simp [validate_and_filter_roles, VALID_KMRL_ROLES]
  | aList l =>
      simp only [validate_and_filter_roles]
      by_cases h : (l.filter (fun role => VALID_KMRL_ROLES.contains role)).isEmpty
      · rw [if_pos h]
        simp [VALID_KMRL_ROLES]
      · rw [if_neg h]
        refine ⟨fun hnil => h (by rw [hnil]; rfl), fun r hr => ?_⟩
        have hc := List.of_mem_filter hr
        simpa using hc

/-- C3 (code behavior at raw confidence exactly 0): `clamp01` lifts 0 to
0.1 before the `conf == 0.0` test of `normalize_analysis` runs, so that
test is dead code and a raw confidence of exactly 0 is normalized to 0.1,
not to the 0.15 that the specification (and the source's own inline
comment) promises. -/
theorem c3_zero_confidence_code_behavior :
    (normalize_analysis (.aDict (.aDict (some (.aList ["LEADERSHIP"])) (some (.num 0)) none)
        none none)).recommended_roles.confidence = 1/10 ∧ (1/10 : ℚ) ≠ 3/20 := by
  constructor
  · simp [normalize_analysis, clamp01]
  · norm_num

/-- C4: for every input to `normalize_analysis` — well-formed record,
malformed record, or non-record — the output confidence lies in
`[0.1, 1.0]`, and in particular is never 0. -/
theorem c4_confidence_bound (a : AnalysisIn) :
    1/10 ≤ (normalize_analysis a).recommended_roles.confidence ∧
      (normalize_analysis a).recommended_roles.confidence ≤ 1 ∧
      (normalize_analysis a).recommended_roles.confidence ≠ 0 := by
  have key : ∀ x : ℚ, 1/10 ≤ x → x ≤ 1 → 1/10 ≤ x ∧ x ≤ 1 ∧ x ≠ 0 := by
    intro x h1 h2
    exact ⟨h1, h2, by intro h0; rw [h0] at h1; norm_num at h1⟩
  cases a with
  | notADict => exact key _ (by norm_num [normalize_analysis]) (by norm_num [normalize_analysis])
  | aDict rec sens dt =>
      cases rec with
      | notADict =>
          exact key _ (by norm_num [normalize_analysis]) (by norm_num [normalize_analysis])
      | missingOrFalsy =>
          exact key _ (by norm_num [normalize_analysis, clamp01])
            (by norm_num [normalize_analysis, clamp01])
      | aDict rolesF confF reasonF =>
          obtain ⟨h1, h2⟩ := clamp01_mem (confF.getD (.num (3/4)))
          have hne : clamp01 (confF.getD (.num (3/4))) ≠ 0 := by
            intro h0; rw [h0] at h1; norm_num at h1
          refine key _ ?_ ?_ <;>
            simp only [normalize_analysis, if_neg hne] <;> assumption

/-- C5: for every input to `normalize_analysis` the output roles list is
non-empty and drawn from the closed vocabulary; `validate_and_filter_roles`
drops unrecognized roles and substitutes the default when the filter
empties the list (or the input is not a list); the input roles
`["LEADERSHIP","WIZARD"]` yield exactly `["LEADERSHIP"]`. -/
theorem c5_role_closure :
    (∀ a : AnalysisIn, (normalize_analysis a).recommended_roles.roles ≠ [] ∧
        ∀ r ∈ (normalize_analysis a).recommended_roles.roles, r ∈ VALID_KMRL_ROLES) ∧
      (∀ l : List String, validate_and_filter_roles (.aList l) =
        if (l.filter (fun role => VALID_KMRL_ROLES.contains role)).isEmpty
        then ["LEADERSHIP"] else l.filter (fun role => VALID_KMRL_ROLES.contains role)) ∧
      validate_and_filter_roles PyRoles.notAList = ["LEADERSHIP"] ∧
      (normalize_analysis (.aDict (.aDict (some (.aList ["LEADERSHIP", "WIZARD"])) none none)
          none none)).recommended_roles.roles = ["LEADERSHIP"] := by
    refine ⟨?_, fun l => rfl, rfl, by decide⟩
    intro a
    cases a with
    | notADict => simp [normalize_analysis, VALID_KMRL_ROLES]
    | aDict rec sens dt =>
        cases rec with
        | notADict => simp [normalize_analysis, VALID_KMRL_ROLES]
        | missingOrFalsy =>
            simpa only [normalize_analysis] using validate_roles_sound (rolesOrDefault none)
        | aDict rolesF confF reasonF =>
            simpa only [normalize_analysis] using validate_roles_sound (rolesOrDefault rolesF)

/-! ## Call Optimizer (`DeepSeekAPIOptimizer`, `optimized_deepseek_call`)

The module-level `api_optimizer` object becomes an explicit state record.
`time.time()` becomes an integer-seconds `now : ℤ` argument.  The two `hashlib.md5`
fingerprints inside `get_cache_key` are modelled as the fingerprinted
data itself (a collision-free deterministic fingerprint), so a cache key
is the triple (operation, first 1000 payload characters, sorted params).
The external HTTP call `call_deepseek_api` returns `None` on any failure
and the response text on success; it is modelled as an
`upstreamResult : Option String` argument supplied per call. -/

/-- Cache key produced by `DeepSeekAPIOptimizer.get_cache_key`. -/
structure CacheKey where
  operation : String
  contentHash : List Char
  paramsHash : List (String × ℚ)
  deriving DecidableEq, Repr

/-- `get_cache_key(operation, content, params)`: the key depends on the
operation name, `content[:1000]`, and the sorted-by-key JSON dump of the
params (`None` params become the empty dict). -/
def get_cache_key (operation : String) (content : List Char)
    (params : Option (List (String × ℚ))) : CacheKey :=
  ⟨operation, content.take 1000,
    List.insertionSort (fun a b => a.1 ≤ b.1) (params.getD [])⟩

/-- One entry of `DeepSeekAPIOptimizer.cache`. -/
structure CacheEntry where
  result : String
  timestamp : ℤ
  deriving DecidableEq, Repr

/-- The mutable state of `DeepSeekAPIOptimizer`: the cache (a Python dict,
kept in insertion order), `request_timestamps['minute']`, and
`request_counts['total']`. -/
structure OptimizerState where
  cache : List (CacheKey × CacheEntry)
  minuteTimestamps : List ℤ
  totalRequests : ℕ
  deriving DecidableEq, Repr

def OptimizerState.empty : OptimizerState := ⟨[], [], 0⟩

/-- Python dict lookup on the insertion-ordered association list. -/
def dictGet (cache : List (CacheKey × CacheEntry)) (k : CacheKey) : Option CacheEntry :=
  (cache.find? (fun e => e.1 == k)).map (·.2)

/-- Python dict assignment: replace in place if the key exists, else append. -/
def dictSet (cache : List (CacheKey × CacheEntry)) (k : CacheKey) (v : CacheEntry) :
    List (CacheKey × CacheEntry) :=
  if cache.any (fun e => e.1 == k) then
    cache.map (fun e => if e.1 == k then (k, v) else e)
  else cache ++ [(k, v)]

/-- Python `del cache[k]`. -/
def dictDel (cache : List (CacheKey × CacheEntry)) (k : CacheKey) :
    List (CacheKey × CacheEntry) :=
  cache.filter (fun e => !(e.1 == k))

/-- `min(self.cache.keys(), key=lambda k: self.cache[k]['timestamp'])`:
the first key (in insertion order) whose timestamp is minimal. -/
def oldestKey : List (CacheKey × CacheEntry) → Option CacheKey
  | [] => none
  | e :: es =>
      some ((es.foldl (fun acc x => if x.2.timestamp < acc.2.timestamp then x else acc) e).1)

/-- `DeepSeekAPIOptimizer.can_make_request`: drop timestamps older than
60 seconds (the trim is persisted) and admit iff fewer than
`max_requests_per_minute = 50` remain. -/
def can_make_request (s : OptimizerState) (now : ℤ) : Bool × OptimizerState :=
  let kept := s.minuteTimestamps.filter (fun ts => now - 60 < ts)
  (kept.length < 50, { s with minuteTimestamps := kept })

/-- `DeepSeekAPIOptimizer.record_request`. -/
def record_request (s : OptimizerState) (now : ℤ) : OptimizerState :=
  { s with minuteTimestamps := s.minuteTimestamps ++ [now],
           totalRequests := s.totalRequests + 1 }

/-- `DeepSeekAPIOptimizer.get_cached_result`: return the stored result if
its age is below `cache_ttl = 3600`; delete an expired entry on lookup. -/
def get_cached_result (s : OptimizerState) (k : CacheKey) (now : ℤ) :
    Option String × OptimizerState :=
  match dictGet s.cache k with
  | some e =>
      if now - e.timestamp < 3600 then (some e.result, s)
      else (none, { s with cache := dictDel s.cache k })
  | none => (none, s)

/-- `DeepSeekAPIOptimizer.cache_result`: store the result under the key;
if the cache then holds more than 1000 entries, evict the single entry
with the oldest timestamp. -/
def cache_result (s : OptimizerState) (k : CacheKey) (result : String) (now : ℤ) :
    OptimizerState :=
  if 1000 < (dictSet s.cache k ⟨result, now⟩).length then
    match oldestKey (dictSet s.cache k ⟨result, now⟩) with
    | some old => { s with cache := dictDel (dictSet s.cache k ⟨result, now⟩) old }
    | none => { s with cache := dictSet s.cache k ⟨result, now⟩ }
  else { s with cache := dictSet s.cache k ⟨result, now⟩ }

/-- Result of one `optimized_deepseek_call`: the returned value (`none`
models Python `None`), the optimizer state afterwards, and whether
`call_deepseek_api` was invoked. -/
structure CallResult where
  result : Option String
  state : OptimizerState
  invokedUpstream : Bool
  deriving DecidableEq, Repr

/-- The cache-miss continuation of `optimized_deepseek_call`: rate check,
record, invoke the (abstracted) upstream API with the merged default
params, and cache a truthy result. -/
def deepseek_call_miss (k : CacheKey) (upstreamResult : Option String) (now : ℤ)
    (s : OptimizerState) : CallResult :=
  if (can_make_request s now).1 then
    let s2 := record_request (can_make_request s now).2 now
    match upstreamResult with
    | some r =>
        -- `if result:` — only truthy (non-empty) results are cached
        if r = "" then ⟨some r, s2, true⟩ else ⟨some r, cache_result s2 k r now, true⟩
    | none => ⟨none, s2, true⟩
  else ⟨none, (can_make_request s now).2, false⟩

/-- `optimized_deepseek_call(operation, content, prompt, params)`: cache
lookup first (a hit requires a truthy cached string because of
`if cached_result:`), then the miss path. The `prompt` argument only
feeds the abstracted upstream call and is omitted. -/
def optimized_deepseek_call (operation : String) (content : List Char)
    (params : Option (List (String × ℚ))) (upstreamResult : Option String)
    (now : ℤ) (s : OptimizerState) : CallResult :=
  let k := get_cache_key operation content params
  match (get_cached_result s k now).1 with
  | some r =>
      if r = "" then deepseek_call_miss k upstreamResult now (get_cached_result s k now).2
      else ⟨some r, (get_cached_result s k now).2, false⟩
  | none => deepseek_call_miss k upstreamResult now (get_cached_result s k now).2

/-- Arguments of one call in a simulated sequence. -/
structure CallSpec where
  operation : String
  content : List Char
  params : Option (List (String × ℚ))
  upstream : Option String
  time : ℤ
  deriving Repr

/-- Run a sequence of `optimized_deepseek_call`s, collecting each call's
result and whether it invoked the upstream API. -/
def runCalls (s : OptimizerState) : List CallSpec → List (Option String × Bool) × OptimizerState
  | [] => ([], s)
  | c :: cs =>
      let r := optimized_deepseek_call c.operation c.content c.params c.upstream c.time s
      let rest := runCalls r.state cs
      ((r.result, r.invokedUpstream) :: rest.1, rest.2)

lemma get_cache_key_take (op : String) (content1 content2 : List Char)
    (params : Option (List (String × ℚ))) (h : content1.take 1000 = content2.take 1000) :
    get_cache_key op content1 params = get_cache_key op content2 params := by
  simp [get_cache_key, h]

lemma dictGet_eq_none_find? (c : List (CacheKey × CacheEntry)) (k : CacheKey)
    (h : dictGet c k = none) : List.find? (fun e => e.1 == k) c = none := by
  unfold dictGet at h
  cases hf : List.find? (fun e => e.1 == k) c with
  | none => rfl
  | some e => rw [hf] at h; simp at h

lemma dictGet_none_any (c : List (CacheKey × CacheEntry)) (k : CacheKey)
    (h : dictGet c k = none) : c.any (fun e => e.1 == k) = false := by
  rw [List.any_eq_false]
  exact List.find?_eq_none.mp (dictGet_eq_none_find? c k h)

lemma find?_key_append_self (c : List (CacheKey × CacheEntry)) (k : CacheKey) (v : CacheEntry)
    (h : List.find? (fun e => e.1 == k) c = none) :
    List.find? (fun e => e.1 == k) (c ++ [(k, v)]) = some (k, v) := by
  induction c with
  | nil => simp
  | cons e es ih =>
      by_cases hek : ((e.1 == k) = true)
      · rw [@List.find?_cons_of_pos _ (fun x => x.1 == k) e es hek] at h
        exact absurd h (by simp)
      · rw [@List.find?_cons_of_neg _ (fun x => x.1 == k) e es hek] at h
        rw [List.cons_append,
          @List.find?_cons_of_neg _ (fun x => x.1 == k) e (es ++ [(k, v)]) hek]
        exact ih h

lemma dictGet_append_self (c : List (CacheKey × CacheEntry)) (k : CacheKey) (v : CacheEntry)
    (h : dictGet c k = none) : dictGet (c ++ [(k, v)]) k = some v := by
  unfold dictGet
  rw [find?_key_append_self c k v (dictGet_eq_none_find? c k h)]
  rfl

lemma cache_result_absent (s : OptimizerState) (k : CacheKey) (r : String) (now : ℤ)
    (habs : dictGet s.cache k = none) (hsmall : s.cache.length ≤ 999) :
    cache_result s k r now = { s with cache := s.cache ++ [(k, ⟨r, now⟩)] } := by
  have hany := dictGet_none_any s.cache k habs
  have hset : dictSet s.cache k ⟨r, now⟩ = s.cache ++ [(k, ⟨r, now⟩)] := by
    simp [dictSet, hany]
  unfold cache_result
  rw [hset, if_neg ?_]
  simp only [List.length_append, List.length_cons, List.length_nil]
  omega

/-- Core two-call lemma: if the key is not yet cached, the first call is
admitted by the rate limiter and its upstream invocation returns a
non-empty result, then a second call with the same operation and params
whose payload agrees with the first on the first 1000 characters is
answered from the cache within the TTL, without an upstream invocation. -/
lemma optimizer_second_call_cached
    (op : String) (content1 content2 : List Char) (params : Option (List (String × ℚ)))
    (r : String) (u2 : Option String) (t1 t2 : ℤ) (s : OptimizerState)
    (htake : content1.take 1000 = content2.take 1000)
    (habsent : dictGet s.cache (get_cache_key op content1 params) = none)
    (hsmall : s.cache.length ≤ 999)
    (hrate : (s.minuteTimestamps.filter (fun ts => t1 - 60 < ts)).length < 50)
    (hr : r ≠ "")
    (httl : t2 - t1 < 3600) :
    (optimized_deepseek_call op content1 params (some r) t1 s).result = some r ∧
    (optimized_deepseek_call op content1 params (some r) t1 s).invokedUpstream = true ∧
    (optimized_deepseek_call op content2 params u2 t2
        (optimized_deepseek_call op content1 params (some r) t1 s).state).result = some r ∧
    (optimized_deepseek_call op content2 params u2 t2
        (optimized_deepseek_call op content1 params (some r) t1 s).state).invokedUpstream
      = false := by
  set k := get_cache_key op content1 params with hk
  have hmiss1 : get_cached_result s k t1 = (none, s) := by
    simp [get_cached_result, habsent]
  have hok : (can_make_request s t1).1 = true := by
    simpa [can_make_request] using hrate
  have hcall1 : optimized_deepseek_call op content1 params (some r) t1 s =
      ⟨some r, cache_result (record_request (can_make_request s t1).2 t1) k r t1, true⟩ := by
    simp [optimized_deepseek_call, hmiss1, deepseek_call_miss, hok, hr, ← hk]
  have hcacheeq : (record_request (can_make_request s t1).2 t1).cache = s.cache := by
    simp [record_request, can_make_request]
  have hsmall2 : (record_request (can_make_request s t1).2 t1).cache.length ≤ 999 := by
    rw [hcacheeq]; exact hsmall
  have habsent2 : dictGet (record_request (can_make_request s t1).2 t1).cache k = none := by
    rw [hcacheeq]; exact habsent
  have hstate1 : (optimized_deepseek_call op content1 params (some r) t1 s).state.cache
      = s.cache ++ [(k, ⟨r, t1⟩)] := by
    rw [hcall1]
    rw [cache_result_absent _ _ _ _ habsent2 hsmall2]
    simpa using hcacheeq
  have hk2 : get_cache_key op content2 params = k :=
    (get_cache_key_take op content1 content2 params htake).symm
  refine ⟨by rw [hcall1], by rw [hcall1], ?_, ?_⟩ <;>
  · set s1 := (optimized_deepseek_call op content1 params (some r) t1 s).state with hs1
    have hget2 : dictGet s1.cache k = some ⟨r, t1⟩ := by
      rw [hs1, hstate1]
      exact dictGet_append_self s.cache k ⟨r, t1⟩ habsent
    have hhit2 : get_cached_result s1 k t2 = (some r, s1) := by
      simp [get_cached_result, hget2, httl]
    have hcall2 : optimized_deepseek_call op content2 params u2 t2 s1 = ⟨some r, s1, false⟩ := by
      simp only [optimized_deepseek_call, hk2, hhit2]
      simp [hr]
    rw [hcall2]

lemma deepseek_call_miss_invoked (k : CacheKey) (u : Option String) (now : ℤ)
    (s1 : OptimizerState) (h : (deepseek_call_miss k u now s1).invokedUpstream = true) :
    (s1.minuteTimestamps.filter (fun ts => now - 60 < ts)).length < 50 := by
  by_cases hok : (can_make_request s1 now).1 = true
  · have := hok
    unfold can_make_request at this
    simpa using this
  · unfold deepseek_call_miss at h
    rw [if_neg hok] at h
    simp at h

/-- C1 counterexample: two `optimized_deepseek_call`s with identical
(operation, payload, params) one second apart (well inside the TTL),
starting from the fresh optimizer state, both invoke the upstream API
when the upstream call fails (returns `None`): a failed result is never
cached because of `if result:`, so the claimed "at most one upstream
invocation" is violated. -/
theorem c1_counterexample :
    ((runCalls .empty
        [⟨"summarize", ['d', 'o', 'c'], none, none, 0⟩,
         ⟨"summarize", ['d', 'o', 'c'], none, none, 1⟩]).1.map Prod.snd) = [true, true] := by
  decide

/-- C1 (amended): starting from a state whose cache has no entry for the
call's key, if the rate limiter admits the first call and its upstream
invocation returns a non-empty result, then two calls with identical
(operation, payload, params) within the TTL issue exactly one upstream
invocation, and the second call returns the first call's result. -/
theorem c1_idempotent_cache (op : String) (content : List Char)
    (params : Option (List (String × ℚ))) (r : String) (u2 : Option String) (t1 t2 : ℤ)
    (s : OptimizerState)
    (habsent : dictGet s.cache (get_cache_key op content params) = none)
    (hsmall : s.cache.length ≤ 999)
    (hrate : (s.minuteTimestamps.filter (fun ts => t1 - 60 < ts)).length < 50)
    (hr : r ≠ "") (httl : t2 - t1 < 3600) :
    (optimized_deepseek_call op content params (some r) t1 s).result = some r ∧
    (optimized_deepseek_call op content params (some r) t1 s).invokedUpstream = true ∧
    (optimized_deepseek_call op content params u2 t2
        (optimized_deepseek_call op content params (some r) t1 s).state).result
      = (optimized_deepseek_call op content params (some r) t1 s).result ∧
    (optimized_deepseek_call op content params u2 t2
        (optimized_deepseek_call op content params (some r) t1 s).state).invokedUpstream
      = false := by
  obtain ⟨h1, h2, h3, h4⟩ :=
    optimizer_second_call_cached op content content params r u2 t1 t2 s rfl
      habsent hsmall hrate hr httl
  exact ⟨h1, h2, h3.trans h1.symm, h4⟩

theorem c1_idempotent_cache_witness :
    (dictGet OptimizerState.empty.cache (get_cache_key "chat" ['d'] none) = none ∧
      OptimizerState.empty.cache.length ≤ 999 ∧
      (OptimizerState.empty.minuteTimestamps.filter (fun ts => (0:ℤ) - 60 < ts)).length < 50 ∧
      ("ok" : String) ≠ "" ∧ (1:ℤ) - 0 < 3600) ∧
    ((optimized_deepseek_call "chat" ['d'] none (some "ok") 0 .empty).result = some "ok" ∧
      (optimized_deepseek_call "chat" ['d'] none (some "ok") 0 .empty).invokedUpstream = true ∧
      (optimized_deepseek_call "chat" ['d'] none none 1
          (optimized_deepseek_call "chat" ['d'] none (some "ok") 0 .empty).state).result
        = (optimized_deepseek_call "chat" ['d'] none (some "ok") 0 .empty).result ∧
      (optimized_deepseek_call "chat" ['d'] none none 1
          (optimized_deepseek_call "chat" ['d'] none (some "ok") 0 .empty).state).invokedUpstream
        = false) :=
  ⟨⟨by decide, by decide, by decide, by decide, by decide⟩,
    c1_idempotent_cache "chat" ['d'] none "ok" none 0 1 .empty
      (by decide) (by decide) (by decide) (by decide) (by decide)⟩

set_option maxRecDepth 40000

/-- The 51 distinct-payload calls of the rate-ceiling scenario: distinct
single-character payloads, all timestamps within one 60-second window. -/
def c6CallSpecs : List CallSpec :=
  (List.range 51).map (fun i => ⟨"analysis", [Char.ofNat (65 + i)], none, some "resp", (i : ℤ)⟩)

/-- C6: from the empty state with ceiling 50, 51 calls with distinct
(non-cached) payloads within 60 simulated seconds: the first 50 invoke
the upstream API, the 51st returns `None` without invoking it; and in
general a call invokes the upstream only when the rolling 60-second
window's count is below the ceiling. -/
theorem c6_rate_ceiling :
    ((runCalls .empty c6CallSpecs).1.map Prod.snd = List.replicate 50 true ++ [false] ∧
      (runCalls .empty c6CallSpecs).1.getLast? = some (none, false)) ∧
    (∀ (op : String) (content : List Char) (params : Option (List (String × ℚ)))
        (u : Option String) (now : ℤ) (s : OptimizerState),
      (optimized_deepseek_call op content params u now s).invokedUpstream = true →
      (s.minuteTimestamps.filter (fun ts => now - 60 < ts)).length < 50) := by
  refine ⟨⟨by decide, by decide⟩, ?_⟩
  intro op content params u now s h
  have hmt : ((get_cached_result s (get_cache_key op content params) now).2).minuteTimestamps
      = s.minuteTimestamps := by
    unfold get_cached_result
    cases dictGet s.cache (get_cache_key op content params) with
    | none => rfl
    | some e => by_cases hT : now - e.timestamp < 3600 <;> simp [hT]
  cases hc : (get_cached_result s (get_cache_key op content params) now).1 with
  | none =>
      simp only [optimized_deepseek_call, hc] at h
      have := deepseek_call_miss_invoked _ _ _ _ h
      rwa [hmt] at this
  | some r =>
      simp only [optimized_deepseek_call, hc] at h
      by_cases hr : r = ""
      · rw [if_pos hr] at h
        have := deepseek_call_miss_invoked _ _ _ _ h
        rwa [hmt] at this
      · rw [if_neg hr] at h
        simp at h

theorem c6_rate_ceiling_witness :
    (optimized_deepseek_call "a" [] none (some "r") 0 .empty).invokedUpstream = true ∧
      ((OptimizerState.empty).minuteTimestamps.filter (fun ts => (0:ℤ) - 60 < ts)).length < 50 :=
  ⟨by decide, c6_rate_ceiling.2 "a" [] none (some "r") 0 .empty (by decide)⟩

/-- C10: the cache key depends only on the operation name, the first 1000
payload characters and the sorted params, so two calls whose payloads
agree on their first 1000 characters share one cache entry: after a
first call whose non-empty result was cached, a second call within the
TTL returns that cached response without an upstream invocation even if
the payloads differ beyond character 1000. -/
theorem c10_cache_key_truncation (op : String) (content1 content2 : List Char)
    (params : Option (List (String × ℚ))) (r : String) (u2 : Option String) (t1 t2 : ℤ)
    (s : OptimizerState)
    (htake : content1.take 1000 = content2.take 1000)
    (habsent : dictGet s.cache (get_cache_key op content1 params) = none)
    (hsmall : s.cache.length ≤ 999)
    (hrate : (s.minuteTimestamps.filter (fun ts => t1 - 60 < ts)).length < 50)
    (hr : r ≠ "") (httl : t2 - t1 < 3600) :
    get_cache_key op content1 params = get_cache_key op content2 params ∧
    (optimized_deepseek_call op content1 params (some r) t1 s).result = some r ∧
    (optimized_deepseek_call op content1 params (some r) t1 s).invokedUpstream = true ∧
    (optimized_deepseek_call op content2 params u2 t2
        (optimized_deepseek_call op content1 params (some r) t1 s).state).result = some r ∧
    (optimized_deepseek_call op content2 params u2 t2
        (optimized_deepseek_call op content1 params (some r) t1 s).state).invokedUpstream
      = false := by
  obtain ⟨h1, h2, h3, h4⟩ :=
    optimizer_second_call_cached op content1 content2 params r u2 t1 t2 s htake
      habsent hsmall hrate hr httl
  exact ⟨get_cache_key_take op content1 content2 params htake, h1, h2, h3, h4⟩

/-- Payload pair for the C10 witness: 1001-character payloads that agree
on their first 1000 characters and differ at character 1000. -/
def c10content1 : List Char := List.replicate 1001 'a'

def c10content2 : List Char := List.replicate 1000 'a' ++ ['b']

theorem c10_cache_key_truncation_witness :
    (c10content1.take 1000 = c10content2.take 1000 ∧
      c10content1 ≠ c10content2 ∧
      dictGet OptimizerState.empty.cache (get_cache_key "chat" c10content1 none) = none ∧
      OptimizerState.empty.cache.length ≤ 999 ∧
      (OptimizerState.empty.minuteTimestamps.filter (fun ts => (0:ℤ) - 60 < ts)).length < 50 ∧
      ("ok" : String) ≠ "" ∧ (1:ℤ) - 0 < 3600) ∧
    (get_cache_key "chat" c10content1 none = get_cache_key "chat" c10content2 none ∧
      (optimized_deepseek_call "chat" c10content1 none (some "ok") 0 .empty).result = some "ok" ∧
      (optimized_deepseek_call "chat" c10content1 none (some "ok") 0 .empty).invokedUpstream
        = true ∧
      (optimized_deepseek_call "chat" c10content2 none none 1
          (optimized_deepseek_call "chat" c10content1 none (some "ok") 0 .empty).state).result
        = some "ok" ∧
      (optimized_deepseek_call "chat" c10content2 none none 1
          (optimized_deepseek_call "chat" c10content1 none (some "ok") 0
            .empty).state).invokedUpstream = false) :=
  ⟨⟨by decide, by decide, by decide, by decide, by decide, by decide, by decide⟩,
    c10_cache_key_truncation "chat" c10content1 c10content2 none "ok" none 0 1 .empty
      (by decide) (by decide) (by decide) (by decide) (by decide) (by decide)⟩

/-! ## Relevance Scorer (`MultilingualDocumentProcessor.find_relevant_images`)

The per-image scoring loop of `find_relevant_images` (factors 1-3).
Python word sets are modelled as duplicate-free lists of character
lists. -/

/-- Python substring containment `a in b` on character lists. -/
def isSubstringOf (q w : List Char) : Bool :=
  (List.range (w.length + 1)).any (fun i => q.isPrefixOf (w.drop i))

/-- `q_word in i_word or i_word in q_word` from the substring-matching
loop of `find_relevant_images`. -/
def substringMatch (q w : List Char) : Bool :=
  isSubstringOf q w || isSubstringOf w q

/-- Factor 1 of `find_relevant_images`:
`len(common_words) / max(len(query_words), 1)` (0 for an empty query set). -/
def word_score (query_words image_words : List (List Char)) : ℚ :=
  ((query_words.filter (fun q => image_words.contains q)).length : ℚ)
    / (max query_words.length 1 : ℚ)

/-- The raw substring score of `find_relevant_images`: the nested loops
add 0.5 for every pair of a query word longer than 3 characters and an
image word such that one contains the other. -/
def substring_score_raw (query_words image_words : List (List Char)) : ℚ :=
  query_words.foldl
    (fun acc q =>
      if 3 < q.length then
        image_words.foldl (fun acc2 w => if substringMatch q w then acc2 + 1/2 else acc2) acc
      else acc) 0

/-- Factor 2 of `find_relevant_images` before weighting:
`min(substring_score / max(len(query_words), 1), 1.0)`. -/
def substring_factor (query_words image_words : List (List Char)) : ℚ :=
  min (substring_score_raw query_words image_words / (max query_words.length 1 : ℚ)) 1

/-- The total relevance score of one image in `find_relevant_images`:
the sum of the three weighted factors (`quality_score` defaults to 0.5
when the image carries none). -/
def relevance_score (query_words image_words : List (List Char)) (quality_score : ℚ) : ℚ :=
  word_score query_words image_words * (6/10)
    + substring_factor query_words image_words * (3/10)
    + quality_score * (1/10)

/-- The substring factor as claim C8 words it: 0.5 once per query word
longer than 3 characters that matches SOME image word, normalized and
capped the same way.  This definition follows the specification text,
not the source; it exists only to be compared with `substring_factor`. -/
def specSubstringFactor (query_words image_words : List (List Char)) : ℚ :=
  min ((((query_words.filter
          (fun q => 3 < q.length && image_words.any (fun w => substringMatch q w))).length : ℚ)
        * (1/2)) / (max query_words.length 1 : ℚ)) 1

lemma substring_inner_foldl (q : List Char) (image_words : List (List Char)) (acc : ℚ) :
    image_words.foldl (fun acc2 w => if substringMatch q w then acc2 + 1/2 else acc2) acc
      = acc + ((image_words.filter (fun w => substringMatch q w)).length : ℚ) * (1/2) := by
  induction image_words generalizing acc with
  | nil => simp
  | cons w ws ih =>
      cases hm : substringMatch q w with
      | false =>
          rw [List.foldl_cons, if_neg (by simp [hm]), ih,
            List.filter_cons_of_neg (by simp [hm])]
      | true =>
          rw [List.foldl_cons, if_pos hm, ih, List.filter_cons_of_pos (by simp [hm])]
          simp only [List.length_cons]
          push_cast
          ring

lemma substring_score_raw_eq_pairs (query_words image_words : List (List Char)) :
    substring_score_raw query_words image_words
      = ((query_words.filter (fun q => 3 < q.length)).map
          (fun q => ((image_words.filter (fun w => substringMatch q w)).length : ℚ))).sum
        * (1/2) := by
  suffices h : ∀ acc : ℚ, query_words.foldl
      (fun acc q =>
        if 3 < q.length then
          image_words.foldl (fun acc2 w => if substringMatch q w then acc2 + 1/2 else acc2) acc
        else acc) acc
      = acc + ((query_words.filter (fun q => 3 < q.length)).map
          (fun q => ((image_words.filter (fun w => substringMatch q w)).length : ℚ))).sum
        * (1/2) by
    simpa [substring_score_raw] using h 0
  induction query_words with
  | nil => simp
  | cons q qs ih =>
      intro acc
      by_cases hq : 3 < q.length
      · rw [List.foldl_cons, if_pos hq, substring_inner_foldl, ih,
          List.filter_cons_of_pos (by simpa using hq)]
        simp only [List.map_cons, List.sum_cons]
        ring
      · rw [List.foldl_cons, if_neg hq, ih, List.filter_cons_of_neg (by simpa using hq)]

/-- C8 counterexample: for the query-word set defined by the single word
"abcd" and image words "abcde" and "xabcdy", the code's factor 2 is 1
(two matching pairs contribute 0.5 each), while the claimed
per-query-word accounting yields 0.5 — so the claim, as stated,
miscomputes the factor. -/
theorem c8_counterexample :
    substring_factor [['a','b','c','d']] [['a','b','c','d','e'], ['x','a','b','c','d','y']]
        = 1 ∧
      specSubstringFactor [['a','b','c','d']] [['a','b','c','d','e'], ['x','a','b','c','d','y']]
        = 1/2 ∧
      (1 : ℚ) ≠ 1/2 := by
  refine ⟨?_, ?_, by norm_num⟩
  · have h2 : (List.filter (fun w => substringMatch ['a','b','c','d'] w)
        [['a','b','c','d','e'], ['x','a','b','c','d','y']]).length = 2 := by decide
    rw [substring_factor, substring_score_raw_eq_pairs]
    rw [show ([['a','b','c','d']].filter (fun q => 3 < q.length)) = [['a','b','c','d']] from
      by decide]
    simp only [List.map_cons, List.map_nil, List.sum_cons, List.sum_nil, h2,
      List.length_cons, List.length_nil]
    norm_num
  · have h1 : ([['a','b','c','d']].filter (fun q => 3 < q.length &&
        [['a','b','c','d','e'], ['x','a','b','c','d','y']].any
          (fun w => substringMatch q w))).length = 1 := by decide
    rw [specSubstringFactor, h1]
    simp only [List.length_cons, List.length_nil]
    norm_num

/-- C8 (amended): factor 2 adds 0.5 for each PAIR of a query word longer
than 3 characters and an image word such that one is a substring of the
other (a query word matching several image words contributes once per
match), divides the sum by `max(len(query_words), 1)`, caps at 1.0, and
enters the total with weight 0.3 alongside factor 1 (weight 0.6) and the
quality score (weight 0.1). -/
theorem c8_substring_factor (query_words image_words : List (List Char)) (quality_score : ℚ) :
    substring_factor query_words image_words
      = min ((((query_words.filter (fun q => 3 < q.length)).map
            (fun q => ((image_words.filter (fun w => substringMatch q w)).length : ℚ))).sum
          * (1/2)) / (max query_words.length 1 : ℚ)) 1 ∧
    relevance_score query_words image_words quality_score
      = word_score query_words image_words * (6/10)
        + substring_factor query_words image_words * (3/10)
        + quality_score * (1/10) := by
  refine ⟨?_, rfl⟩
  rw [substring_factor, substring_score_raw_eq_pairs]

/-! ## Context Assembler (the context-selection loop of `chat_with_document`) -/

/-- A chunk as consumed by the context-assembly loop of
`chat_with_document`: its text and the titles of its contained sections
(fields `text` and `contains_sections` of the chunk dict). -/
structure CtxChunk where
  text : List Char
  sections : List (List Char)

/-- `chunk_context` of the loop body: the `[Section: ...]` header (when
the chunk lists sections) prepended to the chunk text. -/
def chunk_context (c : CtxChunk) : List Char :=
  (if c.sections.isEmpty then []
   else "[Section: ".toList ++ List.intercalate ", ".toList c.sections ++ "]\n".toList)
    ++ c.text

/-- The context-assembly loop of `chat_with_document` with
`max_context_length = 8000`: walk the relevance-sorted chunks, append
each labelled chunk context while the running total (which counts only
the chunk contexts, not the labels) stays within budget; at the first
chunk that would overflow, append a truncated prefix plus `"..."` only
if strictly more than 500 characters of budget remain, and stop.  The
`--- Relevant Section i (Score: ...) ---` label contains a formatted
float and never influences control flow; it is abstracted as a function
of the chunk index. -/
def assembleGo (label : ℕ → List Char) : ℕ → ℕ → List (List Char) → List CtxChunk →
    List (List Char) × ℕ
  | _, total, parts, [] => (parts, total)
  | i, total, parts, c :: rest =>
      if 8000 < total + (chunk_context c).length then
        if 500 < 8000 - total then
          (parts ++ [label i ++ (chunk_context c).take (8000 - total) ++ "...".toList], total)
        else (parts, total)
      else
        assembleGo label (i+1) (total + (chunk_context c).length)
          (parts ++ [label i ++ chunk_context c]) rest

/-- The whole selection loop over the sorted `top_chunks`. -/
def assemble_context (label : ℕ → List Char) (top_chunks : List CtxChunk) :
    List (List Char) × ℕ :=
  assembleGo label 0 0 [] top_chunks

lemma assembleGo_cons_overflow (label : ℕ → List Char) (i total : ℕ)
    (parts : List (List Char)) (c : CtxChunk) (rest : List CtxChunk)
    (hov : 8000 < total + (chunk_context c).length) :
    assembleGo label i total parts (c :: rest)
      = if 500 < 8000 - total then
          (parts ++ [label i ++ (chunk_context c).take (8000 - total) ++ "...".toList], total)
        else (parts, total) := by
  rw [assembleGo, if_pos hov]

lemma assembleGo_cons_fit (label : ℕ → List Char) (i total : ℕ)
    (parts : List (List Char)) (c : CtxChunk) (rest : List CtxChunk)
    (hfit : total + (chunk_context c).length ≤ 8000) :
    assembleGo label i total parts (c :: rest)
      = assembleGo label (i+1) (total + (chunk_context c).length)
          (parts ++ [label i ++ chunk_context c]) rest := by
  rw [assembleGo, if_neg (by omega)]

lemma assembleGo_total_le (chunks : List CtxChunk) (label : ℕ → List Char)
    (i total : ℕ) (parts : List (List Char)) (h : total ≤ 8000) :
    (assembleGo label i total parts chunks).2 ≤ 8000 := by
  induction chunks generalizing i total parts with
  | nil => exact h
  | cons c rest ih =>
      rw [assembleGo]
      by_cases hov : 8000 < total + (chunk_context c).length
      · rw [if_pos hov]
        by_cases htr : 500 < 8000 - total
        · rw [if_pos htr]; exact h
        · rw [if_neg htr]; exact h
      · rw [if_neg hov]
        exact ih _ _ _ (by omega)

/-- C9 counterexample: with a first chunk of 7500 characters and a
second of 600, the second chunk overflows the 8000-character budget with
exactly 500 characters of budget remaining; the claim says a truncated
prefix is appended whenever at least 500 characters remain, but the code
tests `remaining_space > 500` strictly and appends nothing. -/
theorem c9_counterexample :
    (assemble_context (fun _ => [])
        [⟨List.replicate 7500 'a', []⟩, ⟨List.replicate 600 'b', []⟩]).1.length = 1 ∧
      (assemble_context (fun _ => [])
        [⟨List.replicate 7500 'a', []⟩, ⟨List.replicate 600 'b', []⟩]).2 = 7500 ∧
      500 ≤ 8000 - 7500 := by
  have hcc : ∀ t : List Char, chunk_context ⟨t, []⟩ = t := fun t => by simp [chunk_context]
  have hl1 : (chunk_context ⟨List.replicate 7500 'a', []⟩).length = 7500 := by
    rw [hcc, List.length_replicate]
  have hl2 : (chunk_context ⟨List.replicate 600 'b', []⟩).length = 600 := by
    rw [hcc, List.length_replicate]
  rw [assemble_context,
    assembleGo_cons_fit _ _ _ _ _ _ (by rw [hl1]; norm_num),
    hl1,
    assembleGo_cons_overflow _ _ _ _ _ _ (by rw [hl2]; norm_num),
    if_neg (by norm_num)]
  refine ⟨by simp only [List.nil_append, List.length_cons, List.length_nil, Nat.zero_add],
    by norm_num, by norm_num⟩

/-- C9 (amended): chunks sorted by descending relevance are greedily
appended until the next chunk would push the running character total
(which counts chunk contexts only) past the 8000-character budget; at
the overflowing chunk a truncated prefix of it (plus an ellipsis) is
appended, and assembly stops, if and only if STRICTLY more than 500
characters of budget remain, and otherwise assembly stops without it;
the running total never exceeds the budget. -/
theorem c9_truncation_rule :
    (∀ (label : ℕ → List Char) (chunks : List CtxChunk),
        (assemble_context label chunks).2 ≤ 8000) ∧
      (∀ (label : ℕ → List Char) (i total : ℕ) (parts : List (List Char))
          (c : CtxChunk) (rest : List CtxChunk),
        8000 < total + (chunk_context c).length →
        assembleGo label i total parts (c :: rest)
          = if 500 < 8000 - total then
              (parts ++ [label i ++ (chunk_context c).take (8000 - total) ++ "...".toList],
                total)
            else (parts, total)) ∧
      (∀ (label : ℕ → List Char) (i total : ℕ) (parts : List (List Char))
          (c : CtxChunk) (rest : List CtxChunk),
        total + (chunk_context c).length ≤ 8000 →
        assembleGo label i total parts (c :: rest)
          = assembleGo label (i+1) (total + (chunk_context c).length)
              (parts ++ [label i ++ chunk_context c]) rest) := by
  refine ⟨fun label chunks => assembleGo_total_le chunks label 0 0 [] (by omega), ?_, ?_⟩
  · intro label i total parts c rest hov
    rw [assembleGo, if_pos hov]
  · intro label i total parts c rest hfit
    rw [assembleGo, if_neg (by omega)]

theorem c9_truncation_rule_witness :
    ((0 : ℕ) + (chunk_context ⟨['h','i'], []⟩).length ≤ 8000 ∧
      assembleGo (fun _ => []) 0 0 [] [⟨['h','i'], []⟩]
        = assembleGo (fun _ => []) 1 (0 + (chunk_context ⟨['h','i'], []⟩).length)
            ([] ++ [(fun _ => ([] : List Char)) 0 ++ chunk_context ⟨['h','i'], []⟩]) []) ∧
      (assemble_context (fun _ => []) [⟨['h','i'], []⟩]).2 ≤ 8000 :=
  ⟨⟨by decide,
      c9_truncation_rule.2.2 (fun _ => []) 0 0 [] ⟨['h','i'], []⟩ [] (by decide)⟩,
    c9_truncation_rule.1 (fun _ => []) [⟨['h','i'], []⟩]⟩

/-! ## Chunker (`DocumentChunkProcessor`)

`create_intelligent_chunks` walks the text in `chunk_size` strides,
adjusting each cut to a nearby sentence end.  The boundary search uses
Python slicing with possibly negative indices, so Python's
negative-index wrap-around is embedded faithfully (`pyBound`,
`pySlice`).  The `while current_pos < len(text)` loop is not primitive
recursive in general — for small chunk sizes the boundary adjustment can
move the cut to or before the current position and the Python loop never
terminates — so the loop is fuelled; `none` models a run that exhausts
the (generous) fuel. -/

/-- One endpoint of a Python slice `l[a:b]`: negative indices count from
the end, and both endpoints clamp into `[0, len]`. -/
def pyBound (len : ℕ) (i : ℤ) : ℕ :=
  if i < 0 then (max 0 ((len : ℤ) + i)).toNat else min i.toNat len

/-- Python slice `l[a:b]`. -/
def pySlice (l : List Char) (a b : ℤ) : List Char :=
  (l.take (pyBound l.length b)).drop (pyBound l.length a)

/-- Python `str.rfind(pattern)`: the greatest index at which `pattern`
occurs, or `none` (Python `-1`) when it does not occur. -/
def pyRfind (l pat : List Char) : Option ℕ :=
  ((List.range (l.length + 1)).filter (fun j => pat.isPrefixOf (l.drop j))).getLast?

/-- The sentence-end markers `['.', '!', '?', '\n\n']` searched by the
boundary adjustment, in source order. -/
def sentence_ends : List (List Char) := [['.'], ['!'], ['?'], ['\n', '\n']]

/-- The `for end_char in sentence_ends` loop of
`create_intelligent_chunks`: the first marker whose rightmost occurrence
in the boundary window yields an admissible break position wins. -/
def findBreak (boundary_text : List Char) (chunk_end : ℤ) : List (List Char) → Option ℤ
  | [] => none
  | pat :: pats =>
      match pyRfind boundary_text pat with
      | some pos =>
          if chunk_end - 200 < chunk_end - 100 + pos + 1 ∧
              chunk_end - 100 + pos + 1 < chunk_end + 100 then
            some (chunk_end - 100 + pos + 1)
          else findBreak boundary_text chunk_end pats
      | none => findBreak boundary_text chunk_end pats

/-- The sentence-boundary adjustment of `create_intelligent_chunks`.
`if best_break:` uses Python truthiness, so a break at position 0 is
discarded and the raw cut stands. -/
def adjustBoundary (text : List Char) (chunk_end : ℤ) : ℤ :=
  match findBreak (pySlice text (chunk_end - 100) (chunk_end + 100)) chunk_end sentence_ends with
  | some b => if b ≠ 0 then b else chunk_end
  | none => chunk_end

/-- The fixed `section_markers` list of `DocumentChunkProcessor`. -/
def section_markers : List (List Char) :=
  ["executive summary", "introduction", "conclusion", "summary", "recommendation",
   "findings", "decision", "background", "objective", "purpose", "scope",
   "methodology", "analysis", "result", "discussion", "implementation",
   "chapter", "section", "part", "appendix"].map String.toList

/-- The marker-to-weight table of `_calculate_section_importance`. -/
def importance_weights : List (List Char × ℚ) :=
  [("executive summary", 1), ("summary", 9/10), ("conclusion", 9/10),
   ("recommendation", 4/5), ("findings", 4/5), ("decision", 4/5),
   ("introduction", 7/10), ("objective", 3/5), ("purpose", 3/5),
   ("result", 7/10), ("analysis", 3/5), ("discussion", 1/2),
   ("background", 2/5), ("methodology", 2/5), ("implementation", 1/2),
   ("scope", 3/10)].map (fun p => (p.1.toList, p.2))

/-- `_calculate_section_importance`: table lookup with default 0.3. -/
def calculate_section_importance (marker : List Char) : ℚ :=
  ((importance_weights.find? (fun p => p.1 == marker)).map (·.2)).getD (3/10)

/-- Python `str.strip()` (ASCII whitespace suffices for this source). -/
def pyStrip (l : List Char) : List Char :=
  ((l.dropWhile Char.isWhitespace).reverse.dropWhile Char.isWhitespace).reverse

/-- Python `str.lower()` (ASCII case folding suffices for the markers). -/
def pyLower (l : List Char) : List Char := l.map Char.toLower

/-- One entry of `structure['sections']` in `parse_document_structure`. -/
structure SectionInfo where
  title : List Char
  marker : List Char
  position : ℕ
  line_number : ℕ
  importance : ℚ
  deriving DecidableEq, Repr

/-- `for marker in self.section_markers: if marker in line_clean:` —
the first contained marker, in list order. -/
def findMarker (line_clean : List Char) : Option (List Char) :=
  section_markers.find? (fun m => isSubstringOf m line_clean)

/-- The line scan of `parse_document_structure`: a non-empty stripped,
lowered line shorter than 100 characters containing a marker records a
section at the running character offset (`current_pos` advances by
`len(line) + 1` per line). -/
def parseSections : List (List Char) → ℕ → ℕ → List SectionInfo
  | [], _, _ => []
  | line :: rest, line_idx, pos =>
      (if pyLower (pyStrip line) ≠ [] ∧ (pyLower (pyStrip line)).length < 100 then
        match findMarker (pyLower (pyStrip line)) with
        | some m => [⟨pyStrip line, m, pos, line_idx, calculate_section_importance m⟩]
        | none => []
      else []) ++ parseSections rest (line_idx + 1) (pos + line.length + 1)

/-- The dict returned by `parse_document_structure`. -/
structure DocStructure where
  sections : List SectionInfo
  key_sections : List SectionInfo
  total_length : ℕ
  estimated_chunks : ℕ
  deriving Repr

/-- `parse_document_structure(text)`. -/
def parse_document_structure (text : List Char) (chunk_size : ℕ) : DocStructure :=
  let secs := parseSections (text.splitOn '\n') 0 0
  ⟨secs, secs.filter (fun s => (7/10 : ℚ) ≤ s.importance), text.length,
    text.length / chunk_size + 1⟩

/-- One chunk dict of `create_intelligent_chunks`.  The single-chunk
early return carries no `length` key, hence the `Option`. -/
structure Chunk where
  text : List Char
  chunk_id : ℕ
  start_pos : ℤ
  end_pos : ℤ
  importance : ℚ
  contains_sections : List (List Char)
  is_complete : Bool
  length : Option ℕ
  deriving DecidableEq, Repr

/-- `_calculate_chunk_importance`: maximum weight of a contained section,
floored at the base importance 0.3. -/
def calculate_chunk_importance (start_pos end_pos : ℤ) (sections : List SectionInfo) : ℚ :=
  sections.foldl
    (fun acc s =>
      if start_pos ≤ (s.position : ℤ) ∧ (s.position : ℤ) ≤ end_pos then max acc s.importance
      else acc) (3/10)

/-- The cut position of one loop iteration: the raw `chunk_size` stride
clipped to the text length, boundary-adjusted when it falls short of the
end. -/
def chunk_end_at (text : List Char) (chunk_size : ℕ) (current_pos : ℤ) : ℤ :=
  if min (current_pos + chunk_size) (text.length : ℤ) < (text.length : ℤ) then
    adjustBoundary text (min (current_pos + chunk_size) (text.length : ℤ))
  else min (current_pos + chunk_size) (text.length : ℤ)

/-- The chunk dict built by one loop iteration of
`create_intelligent_chunks` (overlap applies from the second chunk on). -/
def mkChunk (text : List Char) (overlap : ℕ) (sections : List SectionInfo)
    (current_pos : ℤ) (chunk_id : ℕ) (chunk_end : ℤ) : Chunk :=
  { text := pyStrip (pySlice text
      (max 0 (current_pos - (if 0 < chunk_id then (overlap : ℤ) else 0))) chunk_end),
    chunk_id := chunk_id,
    start_pos := max 0 (current_pos - (if 0 < chunk_id then (overlap : ℤ) else 0)),
    end_pos := chunk_end,
    importance := calculate_chunk_importance
      (max 0 (current_pos - (if 0 < chunk_id then (overlap : ℤ) else 0))) chunk_end sections,
    contains_sections := (sections.filter (fun s =>
      decide ((max 0 (current_pos - (if 0 < chunk_id then (overlap : ℤ) else 0)))
          ≤ (s.position : ℤ))
        && decide ((s.position : ℤ) ≤ chunk_end))).map (·.title),
    is_complete := decide ((text.length : ℤ) ≤ chunk_end),
    length := some (pyStrip (pySlice text
      (max 0 (current_pos - (if 0 < chunk_id then (overlap : ℤ) else 0))) chunk_end)).length }

/-- The fuelled `while current_pos < len(text)` loop of
`create_intelligent_chunks`. -/
def chunksGo (text : List Char) (chunk_size overlap : ℕ) (sections : List SectionInfo) :
    ℕ → ℤ → ℕ → List Chunk → Option (List Chunk)
  | 0, _, _, _ => none
  | fuel + 1, current_pos, chunk_id, acc =>
      if current_pos < (text.length : ℤ) then
        chunksGo text chunk_size overlap sections fuel (chunk_end_at text chunk_size current_pos)
          (chunk_id + 1)
          (acc ++ [mkChunk text overlap sections current_pos chunk_id
            (chunk_end_at text chunk_size current_pos)])
      else some acc

/-- `create_intelligent_chunks(text)` for a processor configured with the
given `chunk_size` and `overlap`, fuelled with `len(text) + 2` loop
iterations — enough for every run in which each boundary adjustment
advances past the current position (proved below for chunk sizes of at
least 200). -/
def create_intelligent_chunks (text : List Char) (chunk_size overlap : ℕ) :
    Option (List Chunk) :=
  if text.length ≤ chunk_size then
    some [{ text := text, chunk_id := 0, start_pos := 0, end_pos := (text.length : ℤ),
            importance := 1, contains_sections := [], is_complete := true, length := none }]
  else
    chunksGo text chunk_size overlap (parse_document_structure text chunk_size).sections
      (text.length + 2) 0 0 []

/-- C7: for every text of at most `chunk_size` characters,
`create_intelligent_chunks` returns exactly one chunk spanning the whole
text (`start_pos = 0`, `end_pos = len`), with importance 1.0 and
`is_complete = True`. -/
theorem c7_single_chunk (text : List Char) (chunk_size overlap : ℕ)
    (h : text.length ≤ chunk_size) :
    create_intelligent_chunks text chunk_size overlap
      = some [{ text := text, chunk_id := 0, start_pos := 0, end_pos := (text.length : ℤ),
                importance := 1, contains_sections := [], is_complete := true,
                length := none }] := by
  rw [create_intelligent_chunks, if_pos h]

theorem c7_single_chunk_witness :
    "hi".toList.length ≤ 3000 ∧
      create_intelligent_chunks "hi".toList 3000 500
        = some [{ text := "hi".toList, chunk_id := 0, start_pos := 0,
                  end_pos := ("hi".toList.length : ℤ), importance := 1,
                  contains_sections := [], is_complete := true, length := none }] :=
  ⟨by decide, c7_single_chunk "hi".toList 3000 500 (by decide)⟩

/-- The 120-character text on which the chunk loop never terminates for
`chunk_size = 50`: a period at index 100 and no other sentence end. -/
def text120 : List Char := List.replicate 100 'a' ++ ['.'] ++ List.replicate 19 'b'

lemma text120_step0 : chunk_end_at text120 50 0 = -19 := by decide

lemma text120_stepNeg : chunk_end_at text120 50 (-19) = -19 := by decide

lemma chunksGo_stuck (sections : List SectionInfo) :
    ∀ (fuel chunk_id : ℕ) (acc : List Chunk),
      chunksGo text120 50 10 sections fuel (-19) chunk_id acc = none := by
  intro fuel
  induction fuel with
  | zero => intro id acc; rfl
  | succ fuel ih =>
      intro id acc
      rw [chunksGo, if_pos (by decide), text120_stepNeg]
      exact ih _ _

/-- C2 counterexample: for the 120-character `text120` with
`chunk_size = 50` and `overlap = 10` (`overlap < chunk_size`), the
boundary adjustment lands on the Python-negative position `-19` (the
`text[chunk_end-100:chunk_end+100]` slice wraps around) and the loop
state then repeats forever — the Python loop never terminates and no
chunk list covering the text is ever produced; the fuelled embedding
returns `none` accordingly. -/
theorem c2_counterexample : create_intelligent_chunks text120 50 10 = none := by
  rw [create_intelligent_chunks, if_neg (by decide)]
  rw [show text120.length + 2 = 121 + 1 from by decide]
  rw [chunksGo, if_pos (by decide), text120_step0]
  exact chunksGo_stuck _ 121 1 _

lemma pyRfind_pos_lt (l pat : List Char) (pos : ℕ) (hpat : pat ≠ [])
    (h : pyRfind l pat = some pos) : pos < l.length := by
  have hmem : pos ∈ (List.range (l.length + 1)).filter (fun j => pat.isPrefixOf (l.drop j)) :=
    List.mem_of_mem_getLast? (Option.mem_def.mpr h)
  rw [List.mem_filter] at hmem
  obtain ⟨hrange, hpre⟩ := hmem
  have hpre2 : pat <+: l.drop pos := by simpa using hpre
  have hlen := hpre2.length_le
  rw [List.length_drop] at hlen
  have hpat1 : 1 ≤ pat.length := by
    cases pat with
    | nil => exact absurd rfl hpat
    | cons a as => simp
  rw [List.mem_range] at hrange
  omega

lemma pyBound_le (len : ℕ) (i : ℤ) : pyBound len i ≤ len := by
  unfold pyBound
  split <;> omega

lemma pySlice_le (l : List Char) (a b : ℤ) (ha0 : 0 ≤ a) (hal : a ≤ (l.length : ℤ)) :
    a + ((pySlice l a b).length : ℤ) ≤ (l.length : ℤ) := by
  have hb := pyBound_le l.length b
  unfold pySlice pyBound
  rw [if_neg (by omega)]
  simp only [List.length_drop, List.length_take]
  omega

lemma sentence_ends_ne : ∀ pat ∈ sentence_ends, pat ≠ [] := by decide

lemma findBreak_bounds (boundary : List Char) (ce : ℤ) (pats : List (List Char))
    (hne : ∀ pat ∈ pats, pat ≠ []) (b : ℤ) (h : findBreak boundary ce pats = some b) :
    ce - 200 < b ∧ b < ce + 100 ∧ b ≤ ce - 100 + boundary.length := by
  induction pats with
  | nil => simp [findBreak] at h
  | cons pat pats ih =>
      rw [findBreak] at h
      cases hr : pyRfind boundary pat with
      | none =>
          simp only [hr] at h
          exact ih (fun p hp => hne p (List.mem_cons_of_mem _ hp)) h
      | some pos =>
          simp only [hr] at h
          by_cases hcond : ce - 200 < ce - 100 + pos + 1 ∧ ce - 100 + pos + 1 < ce + 100
          · rw [if_pos hcond] at h
            obtain hb := Option.some.inj h
            have hpos := pyRfind_pos_lt boundary pat pos (hne pat (List.mem_cons_self _ _)) hr
            refine ⟨by omega, by omega, by omega⟩
          · rw [if_neg hcond] at h
            exact ih (fun p hp => hne p (List.mem_cons_of_mem _ hp)) h

lemma adjustBoundary_bounds (text : List Char) (ce : ℤ)
    (h100 : 100 ≤ ce) (hce : ce < (text.length : ℤ)) :
    adjustBoundary text ce = ce ∨
      (ce - 200 < adjustBoundary text ce ∧ adjustBoundary text ce ≤ (text.length : ℤ)) := by
  cases hfb : findBreak (pySlice text (ce - 100) (ce + 100)) ce sentence_ends with
  | none => left; simp [adjustBoundary, hfb]
  | some b =>
      by_cases hb : b = 0
      · left; simp [adjustBoundary, hfb, hb]
      · have heq : adjustBoundary text ce = b := by simp [adjustBoundary, hfb, hb]
        right
        rw [heq]
        obtain ⟨h1, h2, h3⟩ := findBreak_bounds _ _ _ sentence_ends_ne b hfb
        have hsl := pySlice_le text (ce - 100) (ce + 100) (by omega) (by omega)
        exact ⟨h1, by omega⟩

lemma chunk_end_at_bounds (text : List Char) (S : ℕ) (p : ℤ)
    (hS : 200 ≤ S) (hp : 0 ≤ p) (hpl : p < (text.length : ℤ)) :
    p < chunk_end_at text S p ∧ chunk_end_at text S p ≤ (text.length : ℤ) := by
  unfold chunk_end_at
  by_cases hmin : min (p + (S : ℤ)) (text.length : ℤ) < (text.length : ℤ)
  · rw [if_pos hmin]
    have hce : min (p + (S : ℤ)) (text.length : ℤ) = p + S := by omega
    rw [hce] at hmin ⊢
    rcases adjustBoundary_bounds text (p + S) (by omega) hmin with heq | ⟨h1, h2⟩
    · rw [heq]; omega
    · exact ⟨by omega, h2⟩
  · rw [if_neg hmin]
    omega

/-- The consecutive-chunk relation of claim C2: the previous chunk's end
overshoots the next chunk's start by between 0 and `overlap`
characters. -/
def ChunkRel (overlap : ℕ) (a b : Chunk) : Prop :=
  0 ≤ a.end_pos - b.start_pos ∧ a.end_pos - b.start_pos ≤ (overlap : ℤ)

lemma chunksGo_spec (text : List Char) (S O : ℕ) (secs : List SectionInfo) (hS : 200 ≤ S) :
    ∀ (fuel : ℕ) (p : ℤ) (chunk_id : ℕ) (acc : List Chunk),
      0 ≤ p → p ≤ (text.length : ℤ) → (text.length : ℤ) - p < (fuel : ℤ) →
      (∀ c, acc.getLast? = some c → c.end_pos = p) →
      (acc ≠ [] → 0 < chunk_id) →
      List.Chain' (ChunkRel O) acc →
      ∃ cs, chunksGo text S O secs fuel p chunk_id acc = some cs ∧
        (∀ n : ℤ, ((∃ c ∈ acc, c.start_pos ≤ n ∧ n < c.end_pos) ∨
            (p ≤ n ∧ n < (text.length : ℤ))) →
          ∃ c ∈ cs, c.start_pos ≤ n ∧ n < c.end_pos) ∧
        List.Chain' (ChunkRel O) cs := by
  intro fuel
  induction fuel with
  | zero =>
      intro p id acc hp0 hpl hfuel _ _ _
      exfalso
      omega
  | succ fuel ih =>
      intro p id acc hp0 hpl hfuel hlast hid hchain
      by_cases hpl2 : p < (text.length : ℤ)
      · obtain ⟨hprog, hle⟩ := chunk_end_at_bounds text S p hS hp0 hpl2
        rw [chunksGo, if_pos hpl2]
        have hite : (0 : ℤ) ≤ (if 0 < id then (O : ℤ) else 0) := by
          split <;> simp
        have happ : ∀ c2, (acc ++ [mkChunk text O secs p id (chunk_end_at text S p)]).getLast?
            = some c2 → c2.end_pos = chunk_end_at text S p := by
          intro c2 h2
          rw [List.getLast?_concat] at h2
          rw [← Option.some.inj h2]
          rfl
        have hid2 : acc ++ [mkChunk text O secs p id (chunk_end_at text S p)] ≠ []
            → 0 < id + 1 := fun _ => Nat.succ_pos id
        have hchain2 : List.Chain'
            (ChunkRel O) (acc ++ [mkChunk text O secs p id (chunk_end_at text S p)]) := by
          rw [List.chain'_append]
          refine ⟨hchain, List.chain'_singleton _, ?_⟩
          intro x hx y hy
          have hne : acc ≠ [] := by
            intro hnil
            subst hnil
            simp at hx
          have hidpos : 0 < id := hid hne
          have hyc : mkChunk text O secs p id (chunk_end_at text S p) = y := by
            simpa using hy
          have hxe : x.end_pos = p := hlast x (Option.mem_def.mp hx)
          subst hyc
          have hstart : (mkChunk text O secs p id (chunk_end_at text S p)).start_pos
              = max 0 (p - (O : ℤ)) := by
            simp [mkChunk, hidpos]
          constructor
          · rw [hstart, hxe]; omega
          · rw [hstart, hxe]; omega
        obtain ⟨cs, hrun, hcov, hch⟩ :=
          ih (chunk_end_at text S p) (id + 1)
            (acc ++ [mkChunk text O secs p id (chunk_end_at text S p)])
            (by omega) hle (by omega) happ hid2 hchain2
        refine ⟨cs, hrun, ?_, hch⟩
        intro n hn
        apply hcov
        rcases hn with ⟨c0, hc0, hc0p⟩ | ⟨hpn, hnl⟩
        · exact Or.inl ⟨c0, List.mem_append_left _ hc0, hc0p⟩
        · by_cases hnE : n < chunk_end_at text S p
          · left
            refine ⟨mkChunk text O secs p id (chunk_end_at text S p),
              List.mem_append_right _ (by simp), ?_, hnE⟩
            show max 0 (p - (if 0 < id then (O : ℤ) else 0)) ≤ n
            omega
          · exact Or.inr ⟨by omega, hnl⟩
      · rw [chunksGo, if_neg hpl2]
        refine ⟨acc, rfl, ?_, hchain⟩
        intro n hn
        rcases hn with hacc | ⟨hpn, hnl⟩
        · exact hacc
        · exfalso; omega

/-- C2 (amended): for every text and every chunk size of at least 200
with `overlap < chunk_size`, the loop of `create_intelligent_chunks`
terminates and the produced chunks' `[start_pos, end_pos)` intervals
cover `[0, len(text))`, with every pair of consecutive chunks
overlapping (previous end minus next start) by between 0 and `overlap`
characters.  For smaller chunk sizes the sentence-boundary search can
move the cut to or before the current position and the loop never
terminates (see the counterexample). -/
theorem c2_chunk_coverage (text : List Char) (S O : ℕ) (hS : 200 ≤ S) (hO : O < S) :
    ∃ cs, create_intelligent_chunks text S O = some cs ∧
      (∀ n : ℤ, 0 ≤ n → n < (text.length : ℤ) →
        ∃ c ∈ cs, c.start_pos ≤ n ∧ n < c.end_pos) ∧
      List.Chain' (ChunkRel O) cs := by
  by_cases hsmall : text.length ≤ S
  · refine ⟨_, by rw [create_intelligent_chunks, if_pos hsmall], ?_, ?_⟩
    · intro n h0 hl
      exact ⟨_, List.mem_cons_self _ _, h0, hl⟩
    · exact List.chain'_singleton _
  · rw [create_intelligent_chunks, if_neg hsmall]
    obtain ⟨cs, hrun, hcov, hch⟩ :=
      chunksGo_spec text S O (parse_document_structure text S).sections hS
        (text.length + 2) 0 0 []
        le_rfl (by omega) (by push_cast; omega)
        (by intro c h; simp at h) (by intro h; exact absurd rfl h) List.chain'_nil
    exact ⟨cs, hrun, fun n h0 hl => hcov n (Or.inr ⟨h0, hl⟩), hch⟩

theorem c2_chunk_coverage_witness :
    (200 ≤ 200 ∧ 10 < 200) ∧
      (∃ cs, create_intelligent_chunks "hello".toList 200 10 = some cs ∧
        (∀ n : ℤ, 0 ≤ n → n < ("hello".toList.length : ℤ) →
          ∃ c ∈ cs, c.start_pos ≤ n ∧ n < c.end_pos) ∧
        List.Chain' (ChunkRel 10) cs) :=
  ⟨⟨le_rfl, by omega⟩, c2_chunk_coverage "hello".toList 200 10 le_rfl (by omega)⟩

end KMRLDoc
